import Mathlib

/-!
Verification of the French-Translation repository (a transformer-based
machine-translation pipeline).  The Python sources are shallowly embedded:

* `BlueScore` embeds `blue_score.py` (grouper, n-gram precision, brevity
  penalty, BLEU score).  Token sequences are lists of strings, ratios are
  rationals, and the final score lives in `ℝ` because the brevity penalty
  uses `exp` and the geometric mean uses a real exponent.
* `Utils` embeds the NaN diagnostic of `utils.py`.  A floating-point scalar
  is modelled as "NaN or a rational"; raising is modelled with `Except`.
* `Model` embeds the decoding machinery of `model.py`: the pad-after-eos
  normalization, greedy decoding, the attention forward pass, the attention
  score hook, and both beam-search variants.  The neural network itself is
  abstracted as an oracle giving the next-token distribution of a prefix,
  which is exactly how the decoding loops consume it (the decoder is applied
  row-wise to the generated prefixes and only the last position is read).
* `Runner` embeds the BLEU aggregation and early-stopping bookkeeping of
  `transformer_runner.py`, plus a name-resolution model for `save_model`.
-/

namespace BlueScore

/-- Embeds `grouper` from `blue_score.py`: slide an n-length window over the
sequence, stopping (`break`) at the first start index `i` with
`i + n > len(seq)`; `seq[i:i+n]` is `(seq.drop i).take n`. -/
def grouperAux (seq : List String) (n : Nat) : List Nat → List (List String)
  | [] => []
  | i :: is =>
    if seq.length < i + n then []
    else ((seq.drop i).take n) :: grouperAux seq n is

/-- Embeds `grouper(seq, n)`: the loop runs over `range(len(seq))`. -/
def grouper (seq : List String) (n : Nat) : List (List String) :=
  grouperAux seq n (List.range seq.length)

/-- Embeds `n_gram_precision` from `blue_score.py`: 0 if either sequence has
fewer than `n` tokens or the candidate yields no n-grams, else the number of
candidate n-grams occurring anywhere in the reference n-gram list (counted
each time, no clipping) divided by the number of candidate n-grams. -/
def n_gram_precision (reference candidate : List String) (n : Nat) : ℚ :=
  if candidate.length < n ∨ reference.length < n then 0
  else
    let ref := grouper reference n
    let c := grouper candidate n
    if c.length = 0 then 0
    else ((c.countP (fun g => decide (g ∈ ref))) : ℚ) / (c.length : ℚ)

/-- Embeds `brevity_penalty` from `blue_score.py`: 0 for an empty candidate;
with `r = len(reference)/len(candidate)`, 1 when `r < 1`, else `exp (1 - r)`. -/
noncomputable def brevity_penalty (reference candidate : List String) : ℝ :=
  if candidate.length = 0 then 0
  else
    let r : ℝ := (reference.length : ℝ) / (candidate.length : ℝ)
    if r < 1 then 1 else Real.exp (1 - r)

/-- Embeds `BLEU_score` from `blue_score.py`: 0 when the candidate is shorter
than `n`, otherwise `bp * p ** (1/n) * 100` where `p` is accumulated by the
loop `for i in range(1, n + 1): p *= n_gram_precision(...)`.  The Python
float power on the nonnegative `p` is real `rpow`. -/
noncomputable def BLEU_score (reference candidate : List String) (n : Nat) : ℝ :=
  if candidate.length < n then 0
  else
    let bp := brevity_penalty reference candidate
    let p : ℚ :=
      (List.range' 1 n).foldl (fun p i => p * n_gram_precision reference candidate i) 1
    bp * (((p : ℝ)) ^ ((1 : ℝ) / (n : ℝ))) * 100

end BlueScore

namespace Utils

/-- A floating-point scalar of a tensor, modelled as either NaN or a finite
rational (infinities play no role in the NaN check). -/
inductive FP where
  | nan : FP
  | val : ℚ → FP
deriving DecidableEq

/-- Embeds `t.isnan()` elementwise. -/
def FP.isNan : FP → Bool
  | .nan => true
  | .val _ => false

/-- Rendering of one scalar inside the formatted tensor. -/
def fpStr : FP → String
  | .nan => "nan"
  | .val q => toString q

/-- Models the Python string formatting of the tensor `t` that the f-string
in `nan_check` interpolates.  The exact shape of the rendering is irrelevant
to the claims; what matters is that it is a function of the tensor alone. -/
def tensorStr (t : List FP) : String :=
  "tensor([" ++ String.intercalate ", " (t.map fpStr) ++ "])"

/-- Embeds `nan_check(t, t_name)` from `utils.py`: if any element of `t` is
NaN, raise `ValueError(f"NaNs in tensor ...")` whose message interpolates the
tensor `t` itself (the name `t_name` is only printed to stdout and does not
occur in the raised message); otherwise return silently. -/
def nan_check (t : List FP) (t_name : String) : Except String Unit :=
  if t.any FP.isNan then Except.error ("NaNs in tensor " ++ tensorStr t)
  else Except.ok ()

end Utils

namespace Runner

/-- Embeds the per-example clean-up loop inside `compute_batch_total_bleu`
(`transformer_runner.py`): walk the token ids; a non-special token is kept
(stringified), the eos token stops the walk (`break`), and sos or padding
tokens are skipped. -/
def clean_seq (sos eos pad : Int) : List Int → List String
  | [] => []
  | t :: ts =>
    if t = sos ∨ t = eos ∨ t = pad then
      if t = eos then [] else clean_seq sos eos pad ts
    else toString t :: clean_seq sos eos pad ts

/-- Embeds `compute_batch_total_bleu` from `transformer_runner.py`.  The
batch is the row-wise zip of `target_y_ref` and `target_y_cand`; `f` is the
`bleu_score_func` argument.  The accumulator `bleu` starts as a list of
zeros and each example assigns `bleu[j] = f(ref_clean, cand_clean, n)` for
every requested level, overwriting the previous example's values.  The batch
size is returned alongside. -/
def compute_batch_total_bleu (f : List String → List String → Nat → ℝ)
    (batch : List (List Int × List Int)) (sos eos pad : Int) (levels : List Nat) :
    List ℝ × Nat :=
  (batch.foldl
    (fun _bleu rc =>
      levels.map (fun n => f (clean_seq sos eos pad rc.1) (clean_seq sos eos pad rc.2) n))
    (levels.map (fun _ => (0 : ℝ))),
   batch.length)

/-- Embeds the early-stopping bookkeeping of `train`
(`transformer_runner.py`, lines 229-233): given the validation BLEU at the
first listed n-gram level, the best value so far and the `num_poor` counter,
`if bleu[0] < best_bleu: num_poor += 1 else: num_poor = 0; best_bleu = bleu[0]`.
Returns the updated `(best_bleu, num_poor)`. -/
def early_stop_update (bleu0 best_bleu : ℚ) (num_poor : Nat) : ℚ × Nat :=
  if bleu0 < best_bleu then (best_bleu, num_poor + 1) else (bleu0, 0)

/-- The global names bound at the top of `transformer_runner.py` by its
imported modules and class definition: the modules time, tqdm, argparse,
torch, utils, dataloader and (guarded) wandb, the typing names Callable and
Sequence, the names TransformerEncoderDecoder and BLEU_score pulled from
the model and scorer modules, and the class TransformerRunner itself. -/
def transformer_runner_globals : List String :=
  ["time", "tqdm", "argparse", "Callable", "Sequence", "torch", "utils",
   "dataloader", "TransformerEncoderDecoder", "BLEU_score", "wandb",
   "TransformerRunner"]

/-- The Python builtins that the body of `save_model` could fall back to. -/
def python_builtins : List String :=
  ["print", "next", "len", "range", "min", "max", "open", "getattr",
   "float", "str", "int", "list", "zip", "enumerate", "sorted", "all"]

/-- Name resolution for a global reference inside `transformer_runner.py`:
module globals first, then builtins. -/
def resolves (name : String) : Bool :=
  name ∈ transformer_runner_globals || name ∈ python_builtins

/-- Observable outcome of one `save_model` call. -/
structure SaveModelResult where
  model_device : String
  checkpoint_written : Bool
  error : Option String
deriving DecidableEq

/-- Embeds `save_model` from `transformer_runner.py` for a model whose
parameters start on `orig_device`.  Line 89 records the device, line 90
moves the model to the CPU, and line 91 then evaluates the global name
`a2_utils` (the module only imports `utils`); if the name resolved, the
checkpoint would be written through `smart_open` and line 93 would move the
model back, otherwise the lookup raises `NameError` with the model still on
the CPU and nothing written. -/
def save_model (orig_device : String) : SaveModelResult :=
  let device := orig_device
  if resolves "a2_utils" then
    { model_device := device, checkpoint_written := true, error := none }
  else
    { model_device := "cpu", checkpoint_written := false,
      error := some "NameError: name a2_utils is not defined" }

end Runner

namespace Model

/-- Index of the first occurrence of `eos` in a row, or the row's length if
there is none.  This embeds the `lengths` computation of
`pad_generation_sequence` (`model.py`): mark eos positions, append a virtual
sentinel `True` one past the end, and take the least marked index. -/
def first_eos_pos (eos : Int) : List Int → Nat
  | [] => 0
  | t :: ts => if t = eos then 0 else first_eos_pos eos ts + 1

/-- The mask-and-fill of `pad_generation_sequence`: position `i` of the row
is replaced by the padding id exactly when `i` is strictly greater than the
first (real or virtual) eos position `f`.  The index argument `i` is the
running value of the position tensor `a`. -/
def pad_row_aux (pad_idx : Int) (f : Nat) : Nat → List Int → List Int
  | _, [] => []
  | i, t :: ts => (if f < i then pad_idx else t) :: pad_row_aux pad_idx f (i + 1) ts

/-- Embeds `pad_generation_sequence` on a single row: every token strictly
past the first eos (if any) becomes the padding id. -/
def pad_row (pad_idx eos : Int) (row : List Int) : List Int :=
  pad_row_aux pad_idx (first_eos_pos eos row) 0 row

/-- Embeds `pad_generation_sequence` (`model.py`) on a flat batch of
generated sequences; the variant with a beam dimension maps the same
row operation over the extra dimension. -/
def pad_generation_sequence (pad_idx eos : Int) (gen : List (List Int)) : List (List Int) :=
  gen.map (pad_row pad_idx eos)

/-- Structural form of `pad_row`, used to reason about it: keep everything
up to and including the first eos, overwrite the rest with padding. -/
def pad_row_rec (pad_idx eos : Int) : List Int → List Int
  | [] => []
  | t :: ts =>
    if t = eos then t :: ts.map (fun _ => pad_idx)
    else t :: pad_row_rec pad_idx eos ts

/-- Embeds `all_finished` (`model.py`): every row of the current generation
contains the eos token, or the generated length has reached `max_len`.
`seq_len` below is `current_generation.shape[-1]`, the common row length. -/
def seq_len (gen : List (List Int)) : Int :=
  ((gen.headD []).length : Int)

/-- Embeds `all_finished` (`model.py`). -/
def all_finished (current_generation : List (List Int)) (eos_token : Int)
    (max_len : Int) : Bool :=
  (current_generation.all (fun row => row.any (fun t => t = eos_token))) ||
    (max_len ≤ seq_len current_generation)

/-- Embeds `initialize_generation_sequence` (`model.py`): a `[batch, 1]`
tensor filled with the sos token. -/
def initialize_generation_sequence (batch_size : Nat) (target_sos : Int) :
    List (List Int) :=
  List.replicate batch_size [target_sos]

/-- One iteration of the greedy decoding loop body: re-run the decoder on
the whole generated prefix and append the argmax token of the last position
to every row.  The oracle `dec` maps the current batch and one of its rows
to that row's argmax next token, abstracting
`torch.argmax(decoder(...)[:, -1, :], dim=-1)`. -/
def greedy_step (dec : List (List Int) → List Int → Int)
    (gen : List (List Int)) : List (List Int) :=
  gen.map (fun row => row ++ [dec gen row])

/-- The greedy `while not all_finished` loop.  The `fuel` argument is only
an upper bound on the iteration count: the real guard is re-checked before
every step, each step lengthens the rows by one, and the guard fails once
the length reaches `max_len`, so a fuel of `max_len.toNat + 1` is never the
binding constraint. -/
def greedy_loop (dec : List (List Int) → List Int → Int) (eos max_len : Int) :
    Nat → List (List Int) → List (List Int)
  | 0, gen => gen
  | fuel + 1, gen =>
    if all_finished gen eos max_len then gen
    else greedy_loop dec eos max_len fuel (greedy_step dec gen)

/-- Embeds `greedy_decode` (`model.py`): initialize every row with sos,
extend all rows until `all_finished`, then pad everything past the first
eos.  The encoder output is folded into the oracle `dec` (it is computed
once and only read by the decoder calls). -/
def greedy_decode (dec : List (List Int) → List Int → Int) (batch_size : Nat)
    (target_sos target_eos max_len pad_idx : Int) : List (List Int) :=
  let seq := initialize_generation_sequence batch_size target_sos
  let seq := greedy_loop dec target_eos max_len (max_len.toNat + 1) seq
  pad_generation_sequence pad_idx target_eos seq

/-- Embeds `MultiHeadAttention.set_attention_scores` (`model.py`).  The
stored snapshot is an `Option` over an abstract snapshot type; a raised
exception is an `Except.error`.  The first `if` clears the stored snapshot
when `scores is None`; the second `if` runs whenever the store flag is set
and the module is not training, and evaluates `scores.cpu()` - which on
`None` raises `AttributeError`. -/
def set_attention_scores {α : Type} (store_flag training : Bool)
    (prev : Option α) (scores : Option α) : Except String (Option α) :=
  let attention := if scores.isNone then none else prev
  if store_flag && !training then
    match scores with
    | none => Except.error "AttributeError: NoneType object has no cpu method"
    | some s => Except.ok (some s)
  else Except.ok attention

/-- A `[seq_len, features]` activation matrix. -/
abbrev Mat := List (List ℝ)

/-- Dot product of two feature vectors. -/
def dot (a b : List ℝ) : ℝ :=
  (List.zipWith (fun x y => x * y) a b).sum

/-- Embeds `nn.Linear`: `y = x Wᵀ + b` applied to every row of the input,
with `w` stored as `[out_features, in_features]`. -/
def linear (w : Mat) (b : List ℝ) (x : Mat) : Mat :=
  x.map (fun row => List.zipWith (fun wr br => dot wr row + br) w b)

/-- `a ⬝ bᵀ`: embeds `torch.matmul(query, key.transpose(-2, -1))`. -/
def matmulT (a b : Mat) : Mat :=
  a.map (fun ar => b.map (fun br => dot ar br))

/-- `a ⬝ b` via the transpose of `b`. -/
def matmul (a b : Mat) : Mat :=
  matmulT a b.transpose

/-- One row of the softmax over masked scores.  The source fills masked
positions with `-inf` before `torch.softmax`; since `exp(-inf) = 0`, a
masked position contributes `0` to the numerator and denominator, which is
what this embedding computes directly (`ℝ` has no infinity). -/
noncomputable def masked_softmax_row (row : List ℝ) (mrow : List Bool) : List ℝ :=
  let exps := List.zipWith (fun s m => if m then 0 else Real.exp s) row mrow
  exps.map (fun e => e / exps.sum)

/-- Softmax of an unmasked row. -/
noncomputable def softmax_row (row : List ℝ) : List ℝ :=
  (row.map Real.exp).map (fun e => e / (row.map Real.exp).sum)

/-- Columns `[h*d_head, (h+1)*d_head)` of an activation matrix: the slice of
head `h` produced by the `view`/`transpose` reshaping in
`MultiHeadAttention.forward`. -/
def headSlice (d_head h : Nat) (x : Mat) : Mat :=
  x.map (fun row => (row.drop (h * d_head)).take d_head)

/-- Embeds `MultiHeadAttention.attention` for one head: scaled dot-product
scores, optional boolean mask (True = suppress), softmax, weighted sum of
the values.  Attention dropout (rate 0 / evaluation mode) is the identity,
and the diagnostic snapshot side effect does not change the output. -/
noncomputable def attention_head (d_head : Nat) (q k v : Mat)
    (mask : Option (List (List Bool))) : Mat :=
  let scores := (matmulT q k).map (fun r => r.map (fun s => s / Real.sqrt (d_head : ℝ)))
  let weights :=
    match mask with
    | none => scores.map softmax_row
    | some m => List.zipWith masked_softmax_row scores m
  matmul weights v

/-- Re-concatenation of the per-head outputs along the feature dimension
(the `transpose`/`contiguous`/`view` step of the source). -/
def concat_heads (seq_length : Nat) (ms : List Mat) : Mat :=
  (List.range seq_length).map (fun i => (ms.map (fun m => m.getD i [])).flatten)

/-- The parameters of one `MultiHeadAttention` module. -/
structure MHAParams where
  num_heads : Nat
  d_head : Nat
  q_w : Mat
  q_b : List ℝ
  k_w : Mat
  k_b : List ℝ
  v_w : Mat
  v_b : List ℝ
  out_w : Mat
  out_b : List ℝ

/-- Embeds `MultiHeadAttention.forward` (`model.py`) on a batch of
activations.  The decisive first step of the source is
`if key is None or value is None: key = query; value = query`: whenever
either argument is omitted, both are replaced by the query.  Then the three
linear projections are applied, the heads are sliced out, attended to under
the (per-example, head-broadcast) mask, concatenated and passed through the
output projection; the two dropouts are the identity (evaluation mode /
rate 0). -/
noncomputable def mha_forward (p : MHAParams) (query : List Mat)
    (key value : Option (List Mat)) (mask : Option (List (List (List Bool)))) :
    List Mat :=
  let k :=
    match key, value with
    | some kk, some _ => kk
    | _, _ => query
  let v :=
    match key, value with
    | some _, some vv => vv
    | _, _ => query
  (List.range query.length).map (fun b =>
    let qx := linear p.q_w p.q_b (query.getD b [])
    let kx := linear p.k_w p.k_b (k.getD b [])
    let vx := linear p.v_w p.v_b (v.getD b [])
    let mx := mask.map (fun m => m.getD b [])
    let heads := (List.range p.num_heads).map (fun h =>
      attention_head p.d_head (headSlice p.d_head h qx) (headSlice p.d_head h kx)
        (headSlice p.d_head h vx) mx)
    linear p.out_w p.out_b (concat_heads qx.length heads))

/-- A log-probability: `⊥` stands for the `-inf` that the source writes
into the eos logit at beam initialization.  Finite values are integers:
beam search only adds, compares and maximizes log-probabilities, and small
integers are exactly-representable floats whose sums are exact, so traces
over this type coincide with the source's float arithmetic on
integer-valued models. -/
abbrev LogProb := WithBot ℤ

/-- Stable insertion (descending by score) used to model both `torch.topk`
with `sorted=True` and Python's stable `sorted(..., reverse=True)`: an
element is placed before the first strictly smaller score, so earlier
elements win ties. -/
def insert_desc {α : Type} (score : α → LogProb) (x : α) : List α → List α
  | [] => [x]
  | y :: ys => if score x < score y then y :: insert_desc score x ys else x :: y :: ys

/-- Stable sort, descending by score. -/
def sort_desc {α : Type} (score : α → LogProb) : List α → List α
  | [] => []
  | x :: xs => insert_desc score x (sort_desc score xs)

/-- Embeds `torch.topk(xs, m)` on a log-probability vector: the `m` largest
entries with their vocabulary indices, values descending.  (The tie order of
`torch.topk` is unspecified; the concrete inputs used in the theorems below
have pairwise distinct values, so no tie is ever broken.) -/
def topk (m : Nat) (xs : List LogProb) : List (LogProb × Nat) :=
  (sort_desc Prod.fst (xs.enum.map (fun p => (p.2, p.1)))).take m

/-- An alive or candidate beam: the generated token sequence
(`tgt_generation` row) and its per-position log-probabilities
(`seq_log_probs` row). -/
abbrev Beam := List Int × List LogProb

/-- Embeds `initialize_beams_for_beam_search` (`model.py`) for one example:
run the first decoder step from the sos-only prefix, force the eos
log-probability to `-inf`, keep the top-`k` tokens, and build `k` beams of
length 2 whose scores are `[0, log-prob of the chosen token]`.  The oracle
`dec` maps a prefix to the log-probability vector of its last position
(`decoder(..., normalize_logits=True)[:, -1, :]`, which for the transformer
depends only on that row's prefix and the encoded source). -/
def initialize_beams (dec : List Int → List LogProb) (sos eos : Int) (k : Nat) :
    List Beam :=
  let log_probs := dec [sos]
  let log_probs := log_probs.enum.map (fun p => if (p.1 : Int) = eos then ⊥ else p.2)
  (topk k log_probs).map (fun vi => ([sos, (vi.2 : Int)], [(0 : LogProb), vi.1]))

/-- Embeds `score_sequence_for_beam_search` (`model.py`): re-pad the
sequence using the padding id as the terminator (the source passes
`self.padding_idx` as the eos argument of `pad_generation_sequence`), zero
the log-probabilities at padding positions, and sum.  Returns the zeroed
log-probabilities (which the callers keep) and the summed score. -/
def score_sequence (pad_idx : Int) (tgt : List Int) (lps : List LogProb) :
    List LogProb × LogProb :=
  let tgt_padded := pad_row pad_idx pad_idx tgt
  let lps' := List.zipWith (fun t l => if t ≠ pad_idx then l else 0) tgt_padded lps
  (lps', lps'.foldr (· + ·) 0)

/-- Beam expansion shared by both decoders: take the top-`expan` next
tokens of every alive beam and extend it with each of them; the resulting
candidate order is beam-major, matching
`repeat_and_reshape_for_beam_search` followed by the reshape of the
`topk` predictions. -/
def expand_beams (dec : List Int → List LogProb) (expan : Nat)
    (beams : List Beam) : List Beam :=
  beams.flatMap (fun b =>
    (topk expan (dec b.1)).map (fun vi => (b.1 ++ [(vi.2 : Int)], b.2 ++ [vi.1])))

/-- Maximum of a list of scores (`max(...)` over a nonempty Python list;
`⊥` is the identity of `max` on `WithBot`). -/
def list_max (l : List LogProb) : LogProb :=
  l.foldr max ⊥

/-- Minimum of a nonempty list of scores (`min(...)`); folds from the head. -/
def list_min (l : List LogProb) : LogProb :=
  match l with
  | [] => ⊥
  | x :: xs => xs.foldl min x

/-- The per-example state of beam search, specialized to a batch of size
one (the setting of claim C3): the alive beams, the finished list (score
and sequence, best first), whether the example finished (removed from the
active batch / `break`), and whether the Python code would have raised
(indexing `alive_idxs_b[0]` with no alive beam left). -/
structure BeamState where
  beams : List Beam
  finished : List (LogProb × List Int)
  done : Bool
  err : Bool
deriving DecidableEq

/-- The shared finishing bookkeeping of both beam-search variants, for one
example: move candidates containing eos into the finished list (candidate
order), re-sort and cap the list at `k` whenever it holds more than one
entry, and evaluate the stopping rule - the example is finished when the
best finished score strictly exceeds the score of the best remaining alive
candidate.  The second, dead branch (`elif len(finished) == k`) of the
source is reproduced: it can only run when the list is empty, hence only
when `k = 0`.  Returns `(finished, alive, done, err)`. -/
def split_and_stop (eos : Int) (k : Nat)
    (finished0 : List (LogProb × List Int)) (top : List (LogProb × Beam)) :
    List (LogProb × List Int) × List (LogProb × Beam) × Bool × Bool :=
  let fin_new := top.filter (fun sc => sc.2.1.contains eos)
  let alive := top.filter (fun sc => !sc.2.1.contains eos)
  let finished := finished0 ++ fin_new.map (fun sc => (sc.1, sc.2.1))
  let finished :=
    if 1 < finished.length then (sort_desc Prod.fst finished).take k else finished
  if finished ≠ [] then
    match alive.head? with
    | none => (finished, alive, false, true)
    | some a0 =>
      if list_max (finished.map Prod.fst) > a0.1 then (finished, alive, true, false)
      else (finished, alive, false, false)
  else if finished.length = k then
    match alive.head? with
    | none => (finished, alive, false, true)
    | some a0 =>
      if list_min (finished.map Prod.fst) > a0.1 then (finished, alive, true, false)
      else (finished, alive, false, false)
  else (finished, alive, false, false)

/-- One iteration of the `while` loop of `beam_search_decode` (`model.py`)
for a single example: expand every alive beam by its top-`expan`
continuations, score each candidate by the padded sum of log-probabilities,
keep the top-`expan` candidates by score, split them into finished and
alive, and either mark the example done (it is dropped from the active
batch) or continue with the best `k` alive candidates.  The fast variant
scores the raw candidate sequences (no eos re-padding before scoring). -/
def beam_step_fast (dec : List Int → List LogProb) (eos pad_idx : Int)
    (k : Nat) (st : BeamState) : BeamState :=
  let expan := 2 * k
  let cands := expand_beams dec expan st.beams
  let scored := cands.map (fun c =>
    let r := score_sequence pad_idx c.1 c.2
    (r.2, (c.1, r.1)))
  let top := (sort_desc Prod.fst scored).take expan
  match split_and_stop eos k st.finished top with
  | (finished, alive, done, err) =>
    { beams := (alive.take k).map Prod.snd, finished := finished,
      done := done, err := err }

/-- One iteration of the per-example `for i in range(1, max_len)` loop of
`beam_search_decode_slow` (`model.py`).  It differs from the fast body in
exactly one step: the candidate sequences are first re-padded past the
first eos (`pad_generation_sequence(tgt_generation_b, target_eos)`) and it
is these padded sequences that are scored, stored and compared. -/
def beam_step_slow (dec : List Int → List LogProb) (eos pad_idx : Int)
    (k : Nat) (st : BeamState) : BeamState :=
  let expan := 2 * k
  let cands := expand_beams dec expan st.beams
  let cands := cands.map (fun c => (pad_row pad_idx eos c.1, c.2))
  let scored := cands.map (fun c =>
    let r := score_sequence pad_idx c.1 c.2
    (r.2, (c.1, r.1)))
  let top := (sort_desc Prod.fst scored).take expan
  match split_and_stop eos k st.finished top with
  | (finished, alive, done, err) =>
    { beams := (alive.take k).map Prod.snd, finished := finished,
      done := done, err := err }

/-- The fast decoder's driving loop: `while not all(is_finished) and
tgt_generation.shape[-1] < max_len` (`is_finished` is never written, so
only the length test and the in-body `break` - the `done` flag - can stop
it).  `fuel` only bounds the iteration count: every iteration lengthens
the beams by one token and the guard stops at `max_len`, so
`max_len.toNat + 1` iterations are never exhausted before the guard. -/
def fast_loop (dec : List Int → List LogProb) (eos pad_idx : Int) (k : Nat)
    (max_len : Int) : Nat → BeamState → BeamState
  | 0, st => st
  | fuel + 1, st =>
    if st.done || st.err || !(decide (((st.beams.headD ([], [])).1.length : Int) < max_len)) then st
    else fast_loop dec eos pad_idx k max_len fuel (beam_step_fast dec eos pad_idx k st)

/-- The slow decoder's driving loop: exactly `range(1, max_len)` iterations
(`(max_len - 1).toNat` of them), stopped early only by the `break` of the
stopping rule (or by the modelled index error). -/
def slow_loop (dec : List Int → List LogProb) (eos pad_idx : Int) (k : Nat) :
    Nat → BeamState → BeamState
  | 0, st => st
  | fuel + 1, st =>
    if st.done || st.err then st
    else slow_loop dec eos pad_idx k fuel (beam_step_slow dec eos pad_idx k st)

/-- Embeds `finalize_beams_for_beam_search` (`model.py`): right-pad every
selected beam with the padding id to the longest beam's length. -/
def finalize_beams (pad_idx : Int) (top_beams : List (List Int)) : List (List Int) :=
  let max_length := (top_beams.map List.length).foldr Nat.max 0
  top_beams.map (fun b => b ++ List.replicate (max_length - b.length) pad_idx)

/-- Embeds `beam_search_decode` (`model.py`) for an input batch of size
one.  After the loop, an example with no finished candidate falls back to
its best alive beam (`tgt_generation[b, 0, ...]`); the single best finished
sequence is gathered and padded.  `none` models the uncaught exception of
the empty-alive corner. -/
def beam_search_decode (dec : List Int → List LogProb) (sos eos pad_idx : Int)
    (max_len : Int) (k : Nat) : Option (List (List Int)) :=
  let st0 : BeamState := ⟨initialize_beams dec sos eos k, [], false, false⟩
  let st := fast_loop dec eos pad_idx k max_len (max_len.toNat + 1) st0
  if st.err then none
  else
    let best :=
      if st.finished = [] then (st.beams.headD ([], [])).1
      else (st.finished.headD (⊥, [])).2
    some (finalize_beams pad_idx [best])

/-- Embeds `beam_search_decode_slow` (`model.py`) for an input batch of
size one: the identical per-example algorithm, but driven by
`for i in range(1, max_len)` and with the eos re-padding before scoring. -/
def beam_search_decode_slow (dec : List Int → List LogProb) (sos eos pad_idx : Int)
    (max_len : Int) (k : Nat) : Option (List (List Int)) :=
  let st0 : BeamState := ⟨initialize_beams dec sos eos k, [], false, false⟩
  let st := slow_loop dec eos pad_idx k ((max_len - 1).toNat) st0
  if st.err then none
  else
    let best :=
      if st.finished = [] then (st.beams.headD ([], [])).1
      else (st.finished.headD (⊥, [])).2
    some (finalize_beams pad_idx [best])

end Model

/-! ## Theorems about the embedded program -/

namespace BlueScore

/-- The accumulation loop of `BLEU_score` computes the product of the
precisions of orders `1..n`. -/
lemma foldl_mul_range' (f : ℕ → ℚ) (n : ℕ) :
    (List.range' 1 n).foldl (fun p i => p * f i) 1 = ∏ i in Finset.Icc 1 n, f i := by
  induction n with
  | zero => simp
  | succ m ih =>
    have hr : List.range' 1 (m + 1) = List.range' 1 m ++ [1 + m] := by
      simpa using
        (List.range'_concat 1 m :
          List.range' 1 (m + 1) 1 = List.range' 1 m 1 ++ [1 + 1 * m])
    rw [hr, List.foldl_append, ih, Finset.prod_Icc_succ_top (Nat.le_add_left 1 m)]
    simp [Nat.add_comm 1 m]

/-- C4: for `n ≥ 1`, `BLEU_score` returns 0 when the candidate has fewer
than `n` tokens, and otherwise the brevity penalty times the `n`-th root of
the product over `i = 1..n` of the n-gram precisions, times 100; each
order's precision is the number of candidate n-grams occurring anywhere in
the reference's n-gram list - counted every time they match, with no
clipping - divided by the number of candidate n-grams. -/
theorem BLEU_score_spec (reference candidate : List String) (n : Nat) (hn : 1 ≤ n) :
    (candidate.length < n → BLEU_score reference candidate n = 0) ∧
    (n ≤ candidate.length →
      BLEU_score reference candidate n =
        brevity_penalty reference candidate *
          ((((∏ i in Finset.Icc 1 n, n_gram_precision reference candidate i : ℚ)) : ℝ) ^
            ((1 : ℝ) / (n : ℝ))) * 100) ∧
    (∀ i, 1 ≤ i → i ≤ candidate.length → i ≤ reference.length →
      n_gram_precision reference candidate i =
        (((grouper candidate i).countP (fun g => decide (g ∈ grouper reference i))) : ℚ) /
          (((grouper candidate i).length) : ℚ)) := by
  refine ⟨fun h => by simp [BLEU_score, h], fun h => ?_, fun i h1 h2 h3 => ?_⟩
  · have hlt : ¬ candidate.length < n := not_lt.mpr h
    simp only [BLEU_score, if_neg hlt, foldl_mul_range']
  · have hcond : ¬ (candidate.length < i ∨ reference.length < i) := by
      rw [not_or]
      exact ⟨not_lt.mpr h2, not_lt.mpr h3⟩
    simp only [n_gram_precision, if_neg hcond]
    by_cases hc : (grouper candidate i).length = 0
    · rw [if_pos hc]
      have he : grouper candidate i = [] := List.length_eq_zero.mp hc
      rw [he]
      simp
    · rw [if_neg hc]

/-- Witness for C4: the spec applied to reference = candidate =
["the","cat","sat"] at n = 1. -/
theorem BLEU_score_spec_witness :
    BLEU_score ["the", "cat", "sat"] ["the", "cat", "sat"] 1 =
      brevity_penalty ["the", "cat", "sat"] ["the", "cat", "sat"] *
        (((n_gram_precision ["the", "cat", "sat"] ["the", "cat", "sat"] 1 : ℚ) : ℝ) ^
          ((1 : ℝ) / ((1 : Nat) : ℝ))) * 100 := by
  have h := (BLEU_score_spec ["the", "cat", "sat"] ["the", "cat", "sat"] 1 (by decide)).2.1
    (by decide)
  simpa using h

end BlueScore

namespace Runner

/-- A left fold whose step ignores its accumulator returns the image of the
last element: this is the overwrite semantics of the `bleu[j] = ...`
assignment inside `compute_batch_total_bleu`. -/
lemma foldl_overwrite {α β : Type} (g : α → β) (l : List α) (h : l ≠ [])
    (init : β) : l.foldl (fun _ x => g x) init = g (l.getLast h) := by
  induction l generalizing init with
  | nil => exact absurd rfl h
  | cons x t ih =>
    cases t with
    | nil => rfl
    | cons y s =>
      rw [List.foldl_cons, ih (by simp) (g x)]
      simp [List.getLast_cons]

/-- C1: for every non-empty batch, `compute_batch_total_bleu` applied to
the repository's `BLEU_score` returns, at each requested n-gram level,
exactly the BLEU score of the (cleaned) last example of the batch -
earlier examples' scores are overwritten - together with the batch size. -/
theorem compute_batch_total_bleu_last (batch : List (List Int × List Int))
    (sos eos pad : Int) (levels : List Nat) (h : batch ≠ []) :
    compute_batch_total_bleu (fun r c n => BlueScore.BLEU_score r c n)
        batch sos eos pad levels =
      (levels.map (fun n =>
        BlueScore.BLEU_score (clean_seq sos eos pad (batch.getLast h).1)
          (clean_seq sos eos pad (batch.getLast h).2) n),
       batch.length) := by
  unfold compute_batch_total_bleu
  rw [foldl_overwrite
    (fun rc => levels.map (fun n =>
      BlueScore.BLEU_score (clean_seq sos eos pad rc.1) (clean_seq sos eos pad rc.2) n))
    batch h]

/-- Witness for C1: a two-example batch (sos 1, eos 2, pad 0, levels 4 and
3); the returned levels are those of the second (last) example. -/
theorem compute_batch_total_bleu_last_witness :
    compute_batch_total_bleu (fun r c n => BlueScore.BLEU_score r c n)
        [([1, 9, 2], [1, 9, 2]), ([1, 4, 5, 6, 2, 0], [1, 4, 5, 2, 0, 0])]
        1 2 0 [4, 3] =
      ([BlueScore.BLEU_score (clean_seq 1 2 0 [1, 4, 5, 6, 2, 0])
          (clean_seq 1 2 0 [1, 4, 5, 2, 0, 0]) 4,
        BlueScore.BLEU_score (clean_seq 1 2 0 [1, 4, 5, 6, 2, 0])
          (clean_seq 1 2 0 [1, 4, 5, 2, 0, 0]) 3], 2) :=
  compute_batch_total_bleu_last
    [([1, 9, 2], [1, 9, 2]), ([1, 4, 5, 6, 2, 0], [1, 4, 5, 2, 0, 0])]
    1 2 0 [4, 3] (by decide)

/-- Counterexample to C5 as stated: a validation BLEU equal to the best
value so far fails to exceed it, yet the update resets the counter (and
re-records the best) instead of incrementing it. -/
theorem early_stop_update_counterexample :
    (0 : ℚ) ≤ 0 ∧ early_stop_update 0 0 3 = (0, 0) ∧
      (early_stop_update 0 0 3).2 ≠ 3 + 1 := by
  refine ⟨le_refl 0, ?_, ?_⟩
  · simp [early_stop_update]
  · simp [early_stop_update]

/-- C5 (amended): the non-improvement counter is incremented exactly when
the first-listed level's BLEU is strictly below the best seen so far;
otherwise - including ties - the counter is reset to zero and the best
value is set to the new BLEU. -/
theorem early_stop_update_spec (bleu0 best : ℚ) (np : Nat) :
    (bleu0 < best → early_stop_update bleu0 best np = (best, np + 1)) ∧
    (best ≤ bleu0 → early_stop_update bleu0 best np = (bleu0, 0)) := by
  constructor
  · intro h
    simp [early_stop_update, h]
  · intro h
    simp [early_stop_update, not_lt.mpr h]

/-- Witness for C5 (amended): a strict drop increments the counter, a tie
resets it. -/
theorem early_stop_update_spec_witness :
    early_stop_update 1 2 3 = (2, 4) ∧ early_stop_update 5 5 7 = (5, 0) :=
  ⟨(early_stop_update_spec 1 2 3).1 (by norm_num),
   (early_stop_update_spec 5 5 7).2 (by norm_num)⟩

/-- C2: every call of `save_model` hits the unresolvable global `a2_utils`
(the module imports `utils`), so a `NameError` is raised after the model
was moved to the CPU and before anything is serialized: no checkpoint is
written and the model is not restored to its original device. -/
theorem save_model_raises (orig_device : String) :
    save_model orig_device =
      { model_device := "cpu", checkpoint_written := false,
        error := some "NameError: name a2_utils is not defined" } := rfl

end Runner

namespace Utils

/-- Counterexample to C9 as stated: on a tensor containing a NaN the raised
message interpolates the tensor itself, not the supplied name - the name
"foo" does not occur anywhere in the message. -/
theorem nan_check_counterexample :
    nan_check [FP.nan] "foo" = Except.error "NaNs in tensor tensor([nan])" ∧
    ¬ ("foo".toList <:+: ("NaNs in tensor tensor([nan])".toList)) := by
  refine ⟨rfl, ?_⟩
  decide

/-- C9 (amended): `nan_check` on a NaN-containing tensor raises a
ValueError whose message renders the offending tensor and is independent of
the supplied name (the name is only printed, not interpolated into the
error); an all-finite tensor passes silently. -/
theorem nan_check_spec (t : List FP) (name1 name2 : String) :
    nan_check t name1 = nan_check t name2 ∧
    (t.any FP.isNan = true →
      nan_check t name1 = Except.error ("NaNs in tensor " ++ tensorStr t)) ∧
    (t.any FP.isNan = false → nan_check t name1 = Except.ok ()) := by
  refine ⟨rfl, fun h => ?_, fun h => ?_⟩
  · simp [nan_check, h]
  · simp [nan_check, h]

/-- Witness for C9 (amended): the message ignores the name, and a finite
tensor passes. -/
theorem nan_check_spec_witness :
    nan_check [FP.nan] "a" = nan_check [FP.nan] "b" ∧
    nan_check [FP.val 1] "a" = Except.ok () :=
  ⟨(nan_check_spec [FP.nan] "a" "b").1,
   (nan_check_spec [FP.val 1] "a" "b").2.2 rfl⟩

end Utils

namespace Model

/-- C8: calling `set_attention_scores` with an absent value first clears
the stored snapshot, but when the store flag is set and the module is in
evaluation mode the subsequent `scores.cpu()` dereferences `None` and
raises `AttributeError`; in every other flag/mode combination the call
completes with the snapshot cleared. -/
theorem set_attention_scores_none (store_flag training : Bool)
    (prev : Option (List ℚ)) :
    set_attention_scores store_flag training prev (none : Option (List ℚ)) =
      (if store_flag && !training then
        Except.error "AttributeError: NoneType object has no cpu method"
       else Except.ok none) := by
  cases store_flag <;> cases training <;> rfl

/-- Positions at or past the fill threshold are all overwritten. -/
lemma pad_row_aux_const (pad_idx : Int) (f : Nat) :
    ∀ (row : List Int) (i : Nat), f < i →
      pad_row_aux pad_idx f i row = row.map (fun _ => pad_idx) := by
  intro row
  induction row with
  | nil => intro i _; rfl
  | cons t ts ih =>
    intro i hi
    simp only [pad_row_aux, if_pos hi, List.map_cons, ih (i + 1) (Nat.lt_succ_of_lt hi)]

/-- Shifting the threshold and the running index together is invisible. -/
lemma pad_row_aux_shift (pad_idx : Int) :
    ∀ (row : List Int) (f i : Nat),
      pad_row_aux pad_idx (f + 1) (i + 1) row = pad_row_aux pad_idx f i row := by
  intro row
  induction row with
  | nil => intro f i; rfl
  | cons t ts ih =>
    intro f i
    simp only [pad_row_aux, Nat.add_lt_add_iff_right]
    rw [ih f (i + 1)]

/-- The index-arithmetic embedding of the source equals the structural
keep-until-eos-then-pad recursion. -/
lemma pad_row_eq_rec (pad_idx eos : Int) (row : List Int) :
    pad_row pad_idx eos row = pad_row_rec pad_idx eos row := by
  induction row with
  | nil => rfl
  | cons t ts ih =>
    by_cases h : t = eos
    · simp only [pad_row, first_eos_pos, if_pos h, pad_row_aux, Nat.lt_irrefl, if_neg,
        pad_row_rec, pad_row_aux_const pad_idx 0 ts 1 Nat.zero_lt_one]
      simp [h]
    · simp only [pad_row, first_eos_pos, if_neg h, pad_row_rec]
      simp only [pad_row_aux]
      rw [if_neg (by omega : ¬ first_eos_pos eos ts + 1 < 0)]
      rw [pad_row_aux_shift pad_idx ts (first_eos_pos eos ts) 0]
      exact congrArg (fun l => t :: l) ih

/-- The row normalization is idempotent. -/
lemma pad_row_rec_idem (pad_idx eos : Int) (row : List Int) :
    pad_row_rec pad_idx eos (pad_row_rec pad_idx eos row) =
      pad_row_rec pad_idx eos row := by
  induction row with
  | nil => rfl
  | cons t ts ih =>
    by_cases h : t = eos
    · simp only [pad_row_rec, if_pos h, List.map_map]
      rfl
    · simp only [pad_row_rec, if_neg h, ih]

/-- A row without the eos token is left unchanged. -/
lemma pad_row_rec_no_eos (pad_idx eos : Int) (row : List Int) (h : eos ∉ row) :
    pad_row_rec pad_idx eos row = row := by
  induction row with
  | nil => rfl
  | cons t ts ih =>
    have ht : ¬ t = eos := fun he => h (he ▸ List.mem_cons_self t ts)
    simp only [pad_row_rec, if_neg ht, ih (fun hm => h (List.mem_cons_of_mem t hm))]

/-- C7: applying the eos-padding normalization twice yields the same result
as applying it once, and a batch whose rows contain no eos token is
returned unchanged. -/
theorem pad_generation_sequence_spec (pad_idx eos : Int) (gen : List (List Int)) :
    pad_generation_sequence pad_idx eos (pad_generation_sequence pad_idx eos gen) =
      pad_generation_sequence pad_idx eos gen ∧
    ((∀ row ∈ gen, eos ∉ row) → pad_generation_sequence pad_idx eos gen = gen) := by
  constructor
  · unfold pad_generation_sequence
    rw [List.map_map]
    apply List.map_congr_left
    intro row _
    simp only [Function.comp_apply, pad_row_eq_rec, pad_row_rec_idem]
  · intro h
    unfold pad_generation_sequence
    conv_rhs => rw [← List.map_id gen]
    apply List.map_congr_left
    intro row hrow
    rw [pad_row_eq_rec, pad_row_rec_no_eos pad_idx eos row (h row hrow), id]

/-- Witness for C7: the spec's example sequence (property 8), and a batch
without eos. -/
theorem pad_generation_sequence_spec_witness :
    pad_generation_sequence 2 3 (pad_generation_sequence 2 3 [[0, 7, 9, 3, 7, 5]]) =
      pad_generation_sequence 2 3 [[0, 7, 9, 3, 7, 5]] ∧
    pad_generation_sequence 2 3 [[0, 7, 9]] = [[0, 7, 9]] :=
  ⟨(pad_generation_sequence_spec 2 3 [[0, 7, 9, 3, 7, 5]]).1,
   (pad_generation_sequence_spec 2 3 [[0, 7, 9]]).2 (by decide)⟩

/-- The mask-and-fill of `pad_generation_sequence` preserves row length. -/
lemma pad_row_aux_length (pad_idx : Int) (f : Nat) :
    ∀ (row : List Int) (i : Nat), (pad_row_aux pad_idx f i row).length = row.length := by
  intro row
  induction row with
  | nil => intro i; rfl
  | cons t ts ih =>
    intro i
    simp only [pad_row_aux, List.length_cons, ih (i + 1)]

/-- `pad_row` preserves row length. -/
lemma length_pad_row (pad_idx eos : Int) (row : List Int) :
    (pad_row pad_idx eos row).length = row.length :=
  pad_row_aux_length pad_idx (first_eos_pos eos row) row 0

/-- Invariant of the greedy `while` loop: if all rows share the current
generated length and that length is below a bound that also dominates
`max_len`, every row of the loop's result has length at most the bound.
(The loop only steps while the length is strictly below `max_len`, and each
step adds one token to every row.) -/
lemma greedy_loop_length_le (dec : List (List Int) → List Int → Int)
    (eos max_len B : Int) (hmB : max_len ≤ B) :
    ∀ (fuel : Nat) (gen : List (List Int)),
      (∀ row ∈ gen, (row.length : Int) = seq_len gen) →
      seq_len gen ≤ B →
      ∀ row ∈ greedy_loop dec eos max_len fuel gen, (row.length : Int) ≤ B := by
  intro fuel
  induction fuel with
  | zero =>
    intro gen huni hle row hrow
    simp only [greedy_loop] at hrow
    rw [huni row hrow]
    exact hle
  | succ m ih =>
    intro gen huni hle row hrow
    simp only [greedy_loop] at hrow
    by_cases hfin : all_finished gen eos max_len
    · rw [if_pos hfin] at hrow
      rw [huni row hrow]
      exact hle
    · rw [if_neg hfin] at hrow
      have hlt : seq_len gen < max_len := by
        by_contra hge
        apply hfin
        unfold all_finished
        rw [Bool.or_eq_true]
        right
        simpa using not_lt.mp hge
      obtain ⟨g, t, rfl⟩ : ∃ g t, gen = g :: t := by
        cases gen with
        | nil =>
          exact absurd (by rfl : all_finished [] eos max_len = true) hfin
        | cons a b => exact ⟨a, b, rfl⟩
      have hsl : seq_len (g :: t) = (g.length : Int) := rfl
      have huni' : ∀ r ∈ greedy_step dec (g :: t),
          (r.length : Int) = seq_len (greedy_step dec (g :: t)) := by
        intro r hr
        rw [greedy_step, List.mem_map] at hr
        obtain ⟨r0, hr0, rfl⟩ := hr
        have h0 := huni r0 hr0
        rw [hsl] at h0
        simp only [greedy_step, List.map_cons, seq_len, List.headD_cons,
          List.length_append, List.length_cons, List.length_nil]
        push_cast at h0 ⊢
        omega
      have hle' : seq_len (greedy_step dec (g :: t)) ≤ B := by
        have : seq_len (greedy_step dec (g :: t)) = (g.length : Int) + 1 := by
          simp [greedy_step, seq_len]
        rw [this]
        rw [hsl] at hlt
        omega
      exact ih (greedy_step dec (g :: t)) huni' hle' row hrow

/-- Counterexample to C6 as stated: with `max_len = 0` the loop is never
entered, yet the returned sequence still carries the initial sos token and
so has length 1 > 0 (the oracle is irrelevant: it is never consulted). -/
theorem greedy_decode_counterexample :
    greedy_decode (fun _ _ => 0) 1 5 6 0 2 = [[5]] ∧
    ¬ ((((greedy_decode (fun _ _ => 0) 1 5 6 0 2).headD []).length : Int) ≤ 0) := by
  refine ⟨by decide, by decide⟩

/-- C6 (amended): for every oracle, batch, and `max_len ≥ 1`, every
sequence returned by `greedy_decode` has length at most `max_len`. -/
theorem greedy_decode_length_le (dec : List (List Int) → List Int → Int)
    (batch_size : Nat) (target_sos target_eos max_len pad_idx : Int)
    (h : 1 ≤ max_len) :
    ∀ row ∈ greedy_decode dec batch_size target_sos target_eos max_len pad_idx,
      (row.length : Int) ≤ max_len := by
  intro row hrow
  unfold greedy_decode pad_generation_sequence at hrow
  rw [List.mem_map] at hrow
  obtain ⟨pre, hpre, rfl⟩ := hrow
  rw [length_pad_row]
  refine greedy_loop_length_le dec target_eos max_len max_len le_rfl _
    (initialize_generation_sequence batch_size target_sos) ?_ ?_ pre hpre
  · intro r hr
    have hr' : r = [target_sos] := List.eq_of_mem_replicate hr
    cases batch_size with
    | zero => exact absurd hr (by simp [initialize_generation_sequence])
    | succ m =>
      rw [hr']
      rfl
  · cases batch_size with
    | zero =>
      have : seq_len (initialize_generation_sequence 0 target_sos) = 0 := rfl
      rw [this]
      omega
    | succ m =>
      have : seq_len (initialize_generation_sequence (m + 1) target_sos) = 1 := rfl
      rw [this]
      exact h

/-- Witness for C6 (amended): a run with `max_len = 3` that exits through
the length guard; the single returned row has length 3. -/
theorem greedy_decode_length_le_witness :
    greedy_decode (fun _ _ => 0) 1 5 6 3 2 = [[5, 0, 0]] ∧
    ((([5, 0, 0] : List Int).length : Int) ≤ 3) :=
  ⟨by decide,
   greedy_decode_length_le (fun _ _ => 0) 1 5 6 3 2 (by decide) [5, 0, 0] (by decide)⟩

/-- The next-token oracle of the beam-search comparison: over the
vocabulary {0, 1, 2 = padding, 3 = eos}, every prefix receives the same
pairwise-distinct log-probabilities, with token 1 on top and the eos far
below the top two, so no beam ever finishes and no topk tie is ever
broken. -/
def ce_dec : List Int → List LogProb :=
  fun _ => [((-10 : ℤ) : LogProb), ((-1 : ℤ) : LogProb),
            ((-20 : ℤ) : LogProb), ((-30 : ℤ) : LogProb)]

/-- C3: the batched and the unbatched beam search disagree on a
single-example input.  With sos 0, eos 3, padding 2, `max_len` 3 and beam
width 1, the fast decoder's `while` guard caps the generated length at
`max_len` and it returns `[0, 1, 1]`, while the slow decoder runs
`range(1, max_len)` extension steps and returns `[0, 1, 1, 1]` of length
`max_len + 1`. -/
theorem beam_search_fast_slow_differ :
    beam_search_decode ce_dec 0 3 2 3 1 = some [[0, 1, 1]] ∧
    beam_search_decode_slow ce_dec 0 3 2 3 1 = some [[0, 1, 1, 1]] ∧
    beam_search_decode ce_dec 0 3 2 3 1 ≠ beam_search_decode_slow ce_dec 0 3 2 3 1 := by
  refine ⟨by decide, by decide, by decide⟩

/-- C10: supplying only a key (or only a value) to
`MultiHeadAttention.forward` performs pure self-attention - the provided
tensor is ignored and the output equals that of the call with both
omitted. -/
theorem mha_forward_partial_self_attention (p : MHAParams) (query t : List Mat)
    (mask : Option (List (List (List Bool)))) :
    mha_forward p query (some t) none mask = mha_forward p query none none mask ∧
    mha_forward p query none (some t) mask = mha_forward p query none none mask :=
  ⟨rfl, rfl⟩

end Model
